import Mathlib

/-!
# Verification of the PDP decline-curve forecasting core

Shallow embedding of `src/backend/pdp_forecast.py` (functions
`arps_decline`, `fit_arps_decline`, `forecast_well`, `calculate_mpe`,
`evaluate_forecast`).

Modelling choices:

* A data-frame row carries `well_api`, `prod_date` (a day number: pandas
  dates subtract to `.dt.days` integers), and the `oil`/`gas` float
  columns, modelled as rationals.
* `scipy.optimize.curve_fit` is an external library, not code of this
  repository; it is abstracted as a parameter `opt : Opt` receiving
  exactly what the source passes it: the time vector, the production
  vector, the initial guess `p0`, and the bound triples
  `bounds=([0, 0, 0], [np.inf, 1, 2])`.  `none` models the call raising.
* The element-wise numpy evaluation of the fitted Arps model inside
  `forecast_well` is abstracted as a parameter `g : DeclineEval`
  (its float values are irrelevant to the structural claims); the Arps
  model itself is embedded analytically over `ℝ` as `arps_decline`.
* A Python exception escaping a call is modelled by `Option`/`none`;
  the `try`/`except` of `evaluate_forecast` is the `none` branch being
  skipped by `List.filterMap`.
* `calculate_mpe` runs numpy float division, where division by zero
  yields `inf`/`-inf`/`nan` rather than raising.  Values are modelled by
  `FVal`: an exact rational, or one of the IEEE special values, with the
  special-value propagation rules of IEEE arithmetic (exact rounding of
  finite values is out of scope; only finiteness/non-finiteness matters
  to the claims).
-/

/-- One data-frame row of the per-well production table: well id,
production date (as a day number) and the oil/gas volumes. -/
structure Row where
  well_api : ℕ
  prod_date : ℤ
  oil : ℚ
  gas : ℚ
deriving DecidableEq

/-- A fitted Arps parameter triple `(qi, di, b)`. -/
structure ArpsParams where
  qi : ℚ
  di : ℚ
  b : ℚ
deriving DecidableEq

/-- Lower bounds `[0, 0, 0]` passed by `fit_arps_decline` to the
optimizer, for `(qi, di, b)`. -/
def arpsLower : ℚ × ℚ × ℚ := (0, 0, 0)

/-- Upper bounds `[np.inf, 1, 2]` passed by `fit_arps_decline` to the
optimizer; `none` stands for `np.inf` (no upper bound on `qi`). -/
def arpsUpper : Option ℚ × ℚ × ℚ := (none, 1, 2)

/-- `x` satisfies an upper bound that may be `np.inf` (`none`). -/
def leUpper (u : Option ℚ) (x : ℚ) : Bool :=
  match u with
  | none => true
  | some c => decide (x ≤ c)

/-- Membership of a parameter triple in the box given by lower bounds
`lb` and upper bounds `ub` (first component's upper bound may be `∞`). -/
def inBox (lb : ℚ × ℚ × ℚ) (ub : Option ℚ × ℚ × ℚ) (p : ArpsParams) : Bool :=
  decide (lb.1 ≤ p.qi) && leUpper ub.1 p.qi &&
  decide (lb.2.1 ≤ p.di) && decide (p.di ≤ ub.2.1) &&
  decide (lb.2.2 ≤ p.b) && decide (p.b ≤ ub.2.2)

/-- The bounded nonlinear least-squares optimizer
(`scipy.optimize.curve_fit` specialised to the Arps model).  It is
external library code, so it is kept abstract: it receives the time
vector, the production vector, the initial guess and the two bound
triples, and returns the fitted triple, or `none` when the call
raises. -/
def Opt : Type :=
  List ℤ → List ℚ → ArpsParams → (ℚ × ℚ × ℚ) → (Option ℚ × ℚ × ℚ) →
    Option ArpsParams

/-- Element-wise evaluation of the fitted decline model at an integer
day offset (the numpy float evaluation of `arps_decline(t, *params)`),
kept abstract: the structural claims hold for every evaluator. -/
def DeclineEval : Type := ArpsParams → ℤ → ℚ

/-- `production.max()` on a nonempty numpy array (head and tail given
separately, since the empty array raises instead). -/
def maxQ (q : ℚ) (qs : List ℚ) : ℚ := qs.foldl max q

/-- `fit_arps_decline(time, production)`:
initial guess `p0 = [production.max(), 0.1, 0.5]`, then
`curve_fit(arps_decline, time, production, p0=p0,
bounds=([0, 0, 0], [np.inf, 1, 2]))`.
On an empty production array, `production.max()` raises (`none`). -/
def fit_arps_decline (opt : Opt) (time : List ℤ) (production : List ℚ) :
    Option ArpsParams :=
  match production with
  | [] => none
  | q :: qs =>
    opt time production ⟨maxQ q qs, 1/10, 1/2⟩ arpsLower arpsUpper

/-- `min` of a series of dates; the `[]` default is never inspected by
the pipeline (an empty window dies at the fit before the minimum is
used). -/
def minDate (ds : List ℤ) : ℤ :=
  match ds with
  | [] => 0
  | d :: rest => rest.foldl min d

/-- `(well_data['prod_date'] - well_data['prod_date'].min()).dt.days`:
elapsed days of each record from the window's own earliest date. -/
def timeOffsets (well_data : List Row) : List ℤ :=
  well_data.map (fun r => r.prod_date - minDate (well_data.map (fun x => x.prod_date)))

/-- `np.arange(start, stop, step)` for a positive integer `step`:
`ceil((stop - start) / step)` entries `start + step * i`. -/
def npArange (start stop step : ℤ) : List ℤ :=
  (List.range ((stop - start + (step - 1)) / step).toNat).map
    (fun i : ℕ => start + step * (i : ℤ))

/-- `forecast_well(well_data, forecast_months)`: compute the per-window
time offsets, fit oil and gas independently, then evaluate the fitted
models on `np.arange(time[-1] + 30, time[-1] + 30 * (forecast_months + 1), 30)`.
`none` models any exception escaping (a failed fit, or indexing
`time[-1]` of an empty window). -/
def forecast_well (opt : Opt) (g : DeclineEval) (well_data : List Row)
    (forecast_months : ℕ) : Option (List ℚ × List ℚ) := do
  let time := timeOffsets well_data
  let oil_production := well_data.map (fun r => r.oil)
  let gas_production := well_data.map (fun r => r.gas)
  let oil_params ← fit_arps_decline opt time oil_production
  let gas_params ← fit_arps_decline opt time gas_production
  let last ← time.getLast?
  let forecast_time :=
    npArange (last + 30) (last + 30 * ((forecast_months : ℤ) + 1)) 30
  pure (forecast_time.map (g oil_params), forecast_time.map (g gas_params))

/-- A numpy float value: an exact rational, or one of the IEEE special
values `inf`, `-inf`, `nan`.  Finite arithmetic is taken exact (rounding
is out of scope); special values follow IEEE propagation. -/
inductive FVal where
  | fin : ℚ → FVal
  | inf : FVal
  | ninf : FVal
  | nan : FVal
deriving DecidableEq

/-- IEEE addition on `FVal` (used for numpy summation). -/
def FVal.add : FVal → FVal → FVal
  | .nan, _ => .nan
  | _, .nan => .nan
  | .inf, .ninf => .nan
  | .ninf, .inf => .nan
  | .inf, _ => .inf
  | _, .inf => .inf
  | .ninf, _ => .ninf
  | _, .ninf => .ninf
  | .fin a, .fin c => .fin (a + c)

/-- Division of a float by a positive count `n` (for `np.mean`);
`n = 0` gives numpy's `nan` mean of an empty array. -/
def FVal.divNat (x : FVal) (n : ℕ) : FVal :=
  if n = 0 then .nan
  else
    match x with
    | .fin a => .fin (a / n)
    | .inf => .inf
    | .ninf => .ninf
    | .nan => .nan

/-- Multiplication by the positive constant 100 (`np.mean(...) * 100`). -/
def FVal.mul100 : FVal → FVal
  | .fin a => .fin (a * 100)
  | .inf => .inf
  | .ninf => .ninf
  | .nan => .nan

/-- Is the value an ordinary finite float? -/
def FVal.isFinite : FVal → Bool
  | .fin _ => true
  | _ => false

/-- `np.sum` of a float vector. -/
def sumF (l : List FVal) : FVal := l.foldl FVal.add (.fin 0)

/-- `np.mean` of a float vector. -/
def meanF (l : List FVal) : FVal := (sumF l).divNat l.length

/-- One elementwise term `(forecast_i - actual_i) / actual_i` under IEEE
float division: dividing by a zero actual yields `inf`, `-inf` or `nan`
instead of raising. -/
def pointErr (f a : ℚ) : FVal :=
  if a = 0 then
    if f - a > 0 then .inf
    else if f - a < 0 then .ninf
    else .nan
  else .fin ((f - a) / a)

/-- `calculate_mpe(actual, forecast) = np.mean((forecast - actual) / actual) * 100`.
The length guard models numpy's broadcasting error on mismatched
shapes (`none` = raised); in the evaluator both vectors have length 12
whenever this point is reached. -/
def calculate_mpe (actual forecast : List ℚ) : Option FVal :=
  if forecast.length = actual.length then
    some (FVal.mul100 (meanF (List.zipWith pointErr forecast actual)))
  else none

/-- One evaluation record `{'well_api': ..., 'oil_mpe': ..., 'gas_mpe': ...}`. -/
structure EvalRecord where
  well_api : ℕ
  oil_mpe : FVal
  gas_mpe : FVal
deriving DecidableEq

/-- `df['well_api'].unique()` keeps first occurrences in order of
appearance; `seen` accumulates the ids already emitted. -/
def uniqueWellsAux (seen : List ℕ) : List Row → List ℕ
  | [] => []
  | r :: rs =>
    if r.well_api ∈ seen then uniqueWellsAux seen rs
    else r.well_api :: uniqueWellsAux (r.well_api :: seen) rs

/-- `df['well_api'].unique()`. -/
def uniqueWells (df : List Row) : List ℕ := uniqueWellsAux [] df

/-- The body of the `try` block of `evaluate_forecast` for one well:
filter the well's rows, split off the last 12 records
(`iloc[:-12]` / `iloc[-12:]`), forecast on the training part, and score
both commodities; `none` models the caught exception. -/
def processWell (opt : Opt) (g : DeclineEval) (df : List Row) (well : ℕ) :
    Option EvalRecord := do
  let well_data := df.filter (fun r => r.well_api == well)
  let train_data := well_data.take (well_data.length - 12)
  let test_data := well_data.drop (well_data.length - 12)
  let fc ← forecast_well opt g train_data 12
  let oil_mpe ← calculate_mpe (test_data.map (fun r => r.oil)) fc.1
  let gas_mpe ← calculate_mpe (test_data.map (fun r => r.gas)) fc.2
  pure ⟨well, oil_mpe, gas_mpe⟩

/-- `evaluate_forecast(df)`: iterate `df['well_api'].unique()`, append a
record per well that processes cleanly, and skip (after printing) every
well whose processing raises. -/
def evaluate_forecast (opt : Opt) (g : DeclineEval) (df : List Row) :
    List EvalRecord :=
  (uniqueWells df).filterMap (processWell opt g df)

/-- `arps_decline(t, qi, di, b) = qi / (1 + b * di * t) ** (1 / b)`,
the analytic Arps hyperbolic decline model over the reals. -/
noncomputable def arps_decline (t qi di b : ℝ) : ℝ :=
  qi / (1 + b * di * t) ^ (1 / b)

/-! ## Helper lemmas -/

lemma le_foldl_max (t : List ℚ) (q : ℚ) : q ≤ t.foldl max q := by
  induction t generalizing q with
  | nil => exact le_refl q
  | cons a t ih => exact le_trans (le_max_left q a) (ih (max q a))

lemma foldl_max_mem (t : List ℚ) (q : ℚ) : t.foldl max q ∈ q :: t := by
  induction t generalizing q with
  | nil => exact List.mem_singleton.mpr rfl
  | cons a t ih =>
    have h := ih (max q a)
    rcases List.mem_cons.mp h with h | h
    · rcases max_choice q a with hm | hm
      · exact List.mem_cons.mpr (Or.inl (h.trans hm))
      · exact List.mem_cons.mpr (Or.inr (List.mem_cons.mpr (Or.inl (h.trans hm))))
    · exact List.mem_cons.mpr (Or.inr (List.mem_cons.mpr (Or.inr h)))

lemma foldl_max_ge (t : List ℚ) (q y : ℚ) (hy : y ∈ q :: t) : y ≤ t.foldl max q := by
  induction t generalizing q with
  | nil =>
    rcases List.mem_singleton.mp hy with rfl
    exact le_refl y
  | cons a t ih =>
    rw [List.foldl_cons]
    rcases List.mem_cons.mp hy with rfl | hy
    · exact le_trans (le_max_left y a) (le_foldl_max t (max y a))
    · rcases List.mem_cons.mp hy with rfl | hy
      · exact le_trans (le_max_right q y) (le_foldl_max t (max q y))
      · exact ih (max q a) (List.mem_cons.mpr (Or.inr hy))

lemma npArange_thirty (last : ℤ) (m : ℕ) :
    npArange (last + 30) (last + 30 * ((m : ℤ) + 1)) 30 =
      (List.range m).map (fun i : ℕ => last + 30 + 30 * (i : ℤ)) := by
  unfold npArange
  have hc : ((last + 30 * ((m : ℤ) + 1) - (last + 30) + (30 - 1)) / 30).toNat = m := by
    omega
  rw [hc]

/-- Zeta-expanded form of `forecast_well`, for case analysis. -/
lemma forecast_well_def (opt : Opt) (g : DeclineEval) (w : List Row) (m : ℕ) :
    forecast_well opt g w m =
      (fit_arps_decline opt (timeOffsets w) (w.map (fun r => r.oil))).bind
        (fun oil_params =>
          (fit_arps_decline opt (timeOffsets w) (w.map (fun r => r.gas))).bind
            (fun gas_params =>
              ((timeOffsets w).getLast?).bind
                (fun last =>
                  some
                    (((npArange (last + 30) (last + 30 * ((m : ℤ) + 1)) 30).map
                        (g oil_params)),
                      ((npArange (last + 30) (last + 30 * ((m : ℤ) + 1)) 30).map
                        (g gas_params)))))) := rfl

lemma forecast_well_nil (opt : Opt) (g : DeclineEval) (m : ℕ) :
    forecast_well opt g [] m = none := rfl

/-- Shape of a successful forecast: the fits succeeded, the last offset
exists, and both outputs evaluate the fitted models on the 30-day grid. -/
lemma forecast_well_some (opt : Opt) (g : DeclineEval) (w : List Row) (m : ℕ)
    (of gf : List ℚ) (h : forecast_well opt g w m = some (of, gf)) :
    ∃ last oil_params gas_params,
      fit_arps_decline opt (timeOffsets w) (w.map (fun r => r.oil)) = some oil_params ∧
      fit_arps_decline opt (timeOffsets w) (w.map (fun r => r.gas)) = some gas_params ∧
      (timeOffsets w).getLast? = some last ∧
      of = (List.range m).map (fun i : ℕ => g oil_params (last + 30 + 30 * (i : ℤ))) ∧
      gf = (List.range m).map (fun i : ℕ => g gas_params (last + 30 + 30 * (i : ℤ))) := by
  rw [forecast_well_def] at h
  rcases hfo : fit_arps_decline opt (timeOffsets w) (w.map (fun r => r.oil)) with _ | oil_params <;>
    rw [hfo] at h
  · simp at h
  rcases hfg : fit_arps_decline opt (timeOffsets w) (w.map (fun r => r.gas)) with _ | gas_params <;>
    rw [hfg] at h
  · simp at h
  rcases hlast : (timeOffsets w).getLast? with _ | last <;> rw [hlast] at h
  · simp at h
  simp only [Option.some_bind, Option.some.injEq, Prod.mk.injEq] at h
  refine ⟨last, oil_params, gas_params, hfo, hfg, rfl, ?_, ?_⟩
  · rw [← h.1, npArange_thirty]
    simp [List.map_map, Function.comp]
  · rw [← h.2, npArange_thirty]
    simp [List.map_map, Function.comp]

lemma forecast_well_lengths (opt : Opt) (g : DeclineEval) (w : List Row) (m : ℕ)
    (of gf : List ℚ) (h : forecast_well opt g w m = some (of, gf)) :
    of.length = m ∧ gf.length = m := by
  obtain ⟨last, op, gp, _, _, _, hof, hgf⟩ := forecast_well_some opt g w m of gf h
  subst hof; subst hgf
  simp

lemma forecast_well_ne_nil (opt : Opt) (g : DeclineEval) (w : List Row) (m : ℕ)
    (of gf : List ℚ) (h : forecast_well opt g w m = some (of, gf)) : w ≠ [] := by
  intro hw
  subst hw
  rw [forecast_well_nil] at h
  exact absurd h (by simp)

/-! ## C5 and C6: the analytic decline model -/

/-- C5: for all parameters with `qi ≥ 0`, `b > 0` and `di ∈ [0, 1]`,
the Arps decline model at `t = 0` returns exactly `qi`. -/
theorem arps_decline_at_zero (qi di b : ℝ) (hqi : 0 ≤ qi) (hb : 0 < b)
    (hdi0 : 0 ≤ di) (hdi1 : di ≤ 1) : arps_decline 0 qi di b = qi := by
  unfold arps_decline
  rw [mul_zero, add_zero, Real.one_rpow, div_one]

/-- Witness for C5 at `qi = 5`, `di = 1/2`, `b = 2`. -/
theorem arps_decline_at_zero_witness :
    (0:ℝ) ≤ 5 ∧ (0:ℝ) < 2 ∧ (0:ℝ) ≤ 1/2 ∧ (1/2 : ℝ) ≤ 1 ∧
      arps_decline 0 5 (1/2) 2 = 5 :=
  ⟨by norm_num, by norm_num, by norm_num, by norm_num,
    arps_decline_at_zero 5 (1/2) 2 (by norm_num) (by norm_num) (by norm_num)
      (by norm_num)⟩

/-- C6: for fixed valid parameters (`qi ≥ 0`, `di ∈ [0, 1]`, `b > 0`) and
`0 ≤ t1 ≤ t2`, the decline model satisfies
`arps_decline t2 ... ≤ arps_decline t1 ...`: it is monotonically
non-increasing in `t`. -/
theorem arps_decline_antitone (qi di b t1 t2 : ℝ) (hqi : 0 ≤ qi)
    (hdi0 : 0 ≤ di) (hdi1 : di ≤ 1) (hb : 0 < b) (ht1 : 0 ≤ t1)
    (ht : t1 ≤ t2) : arps_decline t2 qi di b ≤ arps_decline t1 qi di b := by
  unfold arps_decline
  have hbd : (0:ℝ) ≤ b * di := mul_nonneg hb.le hdi0
  have h1 : (0:ℝ) < 1 + b * di * t1 := by
    have := mul_nonneg hbd ht1
    linarith
  have h2 : 1 + b * di * t1 ≤ 1 + b * di * t2 :=
    add_le_add_left (mul_le_mul_of_nonneg_left ht hbd) 1
  have hexp : (0:ℝ) ≤ 1 / b := by positivity
  have hd1 : (0:ℝ) < (1 + b * di * t1) ^ (1 / b) := Real.rpow_pos_of_pos h1 _
  have hle : (1 + b * di * t1) ^ (1 / b) ≤ (1 + b * di * t2) ^ (1 / b) :=
    Real.rpow_le_rpow (le_of_lt h1) h2 hexp
  exact div_le_div_of_nonneg_left hqi hd1 hle

/-- Witness for C6 at `qi = 2`, `di = 1`, `b = 1`, `t1 = 0`, `t2 = 3`. -/
theorem arps_decline_antitone_witness :
    (0:ℝ) ≤ 2 ∧ (0:ℝ) ≤ 1 ∧ (1:ℝ) ≤ 1 ∧ (0:ℝ) < 1 ∧ (0:ℝ) ≤ 0 ∧ (0:ℝ) ≤ 3 ∧
      arps_decline 3 2 1 1 ≤ arps_decline 0 2 1 1 :=
  ⟨by norm_num, by norm_num, by norm_num, by norm_num, by norm_num, by norm_num,
    arps_decline_antitone 2 1 1 0 3 (by norm_num) (by norm_num) (by norm_num)
      (by norm_num) (by norm_num) (by norm_num)⟩

/-! ## Non-finiteness propagation through the MPE computation -/

lemma FVal.add_nonfin_left (x y : FVal) (h : x.isFinite = false) :
    (FVal.add x y).isFinite = false := by
  cases x <;> cases y <;> simp_all [FVal.add, FVal.isFinite]

lemma FVal.add_nonfin_right (x y : FVal) (h : y.isFinite = false) :
    (FVal.add x y).isFinite = false := by
  cases x <;> cases y <;> simp_all [FVal.add, FVal.isFinite]

lemma foldl_add_nonfin (l : List FVal) (acc : FVal) (h : acc.isFinite = false) :
    (l.foldl FVal.add acc).isFinite = false := by
  induction l generalizing acc with
  | nil => exact h
  | cons a t ih => exact ih (FVal.add acc a) (FVal.add_nonfin_left acc a h)

lemma foldl_add_nonfin_mem (l : List FVal) (acc x : FVal) (hx : x ∈ l)
    (h : x.isFinite = false) : (l.foldl FVal.add acc).isFinite = false := by
  induction l generalizing acc with
  | nil => exact absurd hx (List.not_mem_nil x)
  | cons a t ih =>
    rcases List.mem_cons.mp hx with rfl | hx
    · exact foldl_add_nonfin t (FVal.add acc x) (FVal.add_nonfin_right acc x h)
    · exact ih (FVal.add acc a) hx

lemma sumF_nonfin (l : List FVal) (x : FVal) (hx : x ∈ l)
    (h : x.isFinite = false) : (sumF l).isFinite = false :=
  foldl_add_nonfin_mem l (.fin 0) x hx h

lemma divNat_nonfin (x : FVal) (n : ℕ) (hn : n ≠ 0) (h : x.isFinite = false) :
    (x.divNat n).isFinite = false := by
  cases x <;> simp_all [FVal.divNat, FVal.isFinite]

lemma mul100_nonfin (x : FVal) (h : x.isFinite = false) :
    x.mul100.isFinite = false := by
  cases x <;> simp_all [FVal.mul100, FVal.isFinite]

lemma pointErr_zero (f : ℚ) : (pointErr f 0).isFinite = false := by
  rw [pointErr, if_pos rfl]
  split_ifs <;> rfl

lemma zipWith_pointErr_zero (of act : List ℚ) (hlen : of.length = act.length)
    (hz : (0:ℚ) ∈ act) :
    ∃ x ∈ List.zipWith pointErr of act, x.isFinite = false := by
  induction of generalizing act with
  | nil =>
    rw [List.length_nil] at hlen
    rw [List.eq_nil_of_length_eq_zero hlen.symm] at hz
    exact absurd hz (List.not_mem_nil 0)
  | cons f ft ih =>
    rcases act with _ | ⟨a, at_⟩
    · exact absurd hz (List.not_mem_nil 0)
    rcases List.mem_cons.mp hz with rfl | hz
    · exact ⟨pointErr f 0, List.mem_cons.mpr (Or.inl rfl), pointErr_zero f⟩
    · obtain ⟨x, hx, hfin⟩ := ih at_ (by simpa using hlen) hz
      exact ⟨x, List.mem_cons.mpr (Or.inr hx), hfin⟩

/-- The Evaluator metric exactly as the spec words it:
`MPE = mean( (forecast_i − actual_i) / actual_i ) × 100`, with IEEE
division of each term (`pointErr`). -/
def MPE_spec (actual forecast : List ℚ) : FVal :=
  FVal.mul100 (meanF (List.zipWith (fun f a => pointErr f a) forecast actual))

lemma calculate_mpe_eq (actual forecast : List ℚ)
    (hlen : forecast.length = actual.length) :
    calculate_mpe actual forecast = some (MPE_spec actual forecast) := by
  rw [calculate_mpe, if_pos hlen]
  rfl

lemma MPE_spec_nonfin (actual forecast : List ℚ)
    (hlen : forecast.length = actual.length) (hz : (0:ℚ) ∈ actual) :
    (MPE_spec actual forecast).isFinite = false := by
  obtain ⟨x, hx, hfin⟩ := zipWith_pointErr_zero forecast actual hlen hz
  exact mul100_nonfin _ (divNat_nonfin _ _
    (by
      intro h0
      rw [List.length_eq_zero] at h0
      rw [h0] at hx
      exact absurd hx (List.not_mem_nil x))
    (sumF_nonfin _ x hx hfin))

/-! ## Helpers for the evaluator -/

/-- Zeta-expanded form of `processWell`, for case analysis. -/
lemma processWell_def (opt : Opt) (g : DeclineEval) (df : List Row) (well : ℕ) :
    processWell opt g df well =
      (forecast_well opt g
          ((df.filter (fun r => r.well_api == well)).take
            ((df.filter (fun r => r.well_api == well)).length - 12)) 12).bind
        (fun fc =>
          (calculate_mpe
              (((df.filter (fun r => r.well_api == well)).drop
                  ((df.filter (fun r => r.well_api == well)).length - 12)).map
                (fun r => r.oil)) fc.1).bind
            (fun oil_mpe =>
              (calculate_mpe
                  (((df.filter (fun r => r.well_api == well)).drop
                      ((df.filter (fun r => r.well_api == well)).length - 12)).map
                    (fun r => r.gas)) fc.2).bind
                (fun gas_mpe => some ⟨well, oil_mpe, gas_mpe⟩))) := rfl

lemma processWell_api (opt : Opt) (g : DeclineEval) (df : List Row) (well : ℕ)
    (r : EvalRecord) (h : processWell opt g df well = some r) :
    r.well_api = well := by
  rw [processWell_def] at h
  rcases hf : forecast_well opt g
      ((df.filter (fun x => x.well_api == well)).take
        ((df.filter (fun x => x.well_api == well)).length - 12)) 12 with _ | fc <;>
    rw [hf] at h
  · simp at h
  simp only [Option.some_bind] at h
  rcases hmo : calculate_mpe
      (((df.filter (fun x => x.well_api == well)).drop
          ((df.filter (fun x => x.well_api == well)).length - 12)).map
        (fun x => x.oil)) fc.1 with _ | om <;> rw [hmo] at h
  · simp at h
  simp only [Option.some_bind] at h
  rcases hmg : calculate_mpe
      (((df.filter (fun x => x.well_api == well)).drop
          ((df.filter (fun x => x.well_api == well)).length - 12)).map
        (fun x => x.gas)) fc.2 with _ | gm <;> rw [hmg] at h
  · simp at h
  simp only [Option.some_bind, Option.some.injEq] at h
  rw [← h]

lemma mem_evaluate_iff (opt : Opt) (g : DeclineEval) (df : List Row)
    (r : EvalRecord) :
    r ∈ evaluate_forecast opt g df ↔
      ∃ w ∈ uniqueWells df, processWell opt g df w = some r := by
  rw [evaluate_forecast]
  exact List.mem_filterMap

/-! ## Concrete sample data (used by the witnesses) -/

/-- An optimizer that converges immediately to the initial guess. -/
def optGuess : Opt := fun _ _ p0 _ _ => some p0

/-- An optimizer that returns the initial guess when it lies in the
requested box and reports failure otherwise; it honours the box. -/
def optBoxed : Opt := fun _ _ p0 lb ub => if inBox lb ub p0 then some p0 else none

/-- A decline evaluator returning the model's initial rate `qi`. -/
def gQi : DeclineEval := fun p _ => p.qi

/-- Row constructor shorthand. -/
def mkRow (w : ℕ) (d : ℤ) (o ga : ℚ) : Row := ⟨w, d, o, ga⟩

/-- 13 monthly records of well 1, constant production. -/
def wGood : List Row :=
  [mkRow 1 0 5 4, mkRow 1 30 5 4, mkRow 1 60 5 4, mkRow 1 90 5 4,
   mkRow 1 120 5 4, mkRow 1 150 5 4, mkRow 1 180 5 4, mkRow 1 210 5 4,
   mkRow 1 240 5 4, mkRow 1 270 5 4, mkRow 1 300 5 4, mkRow 1 330 5 4,
   mkRow 1 360 5 4]

/-- A batch with well 1 (13 records, processes cleanly) and well 2
(a single record, so its training split is empty and processing
fails). -/
def dfTwo : List Row := wGood ++ [mkRow 2 0 1 1]

/-- 13 monthly records of well 7 with one zero oil value and one zero
gas value inside the last-12 test window. -/
def wZero : List Row :=
  [mkRow 7 0 5 4, mkRow 7 30 5 4, mkRow 7 60 0 4, mkRow 7 90 5 0,
   mkRow 7 120 5 4, mkRow 7 150 5 4, mkRow 7 180 5 4, mkRow 7 210 5 4,
   mkRow 7 240 5 4, mkRow 7 270 5 4, mkRow 7 300 5 4, mkRow 7 330 5 4,
   mkRow 7 360 5 4]

/-- A degenerate window: three records sharing one production date. -/
def wDeg : List Row := [mkRow 3 100 6 2, mkRow 3 100 4 1, mkRow 3 100 5 3]

/-- The record well 1 of `dfTwo` evaluates to. -/
def recGood : EvalRecord := ⟨1, .fin 0, .fin 0⟩

/-- The record well 7 of `wZero` evaluates to: infinite oil and gas
MPEs. -/
def recZero : EvalRecord := ⟨7, .inf, .inf⟩

/-! ## C1: the forecast grid -/

/-- C1: for every historical window and every `forecast_months = m ≥ 1`,
a successful `forecast_well` evaluates the fitted decline model at
exactly `m` future offsets — the first at the last historical offset
plus 30, each subsequent one 30 days later — and returns two
equal-length sequences (oil, gas) of length `m` in chronological
order. -/
theorem forecast_grid (opt : Opt) (g : DeclineEval) (w : List Row) (m : ℕ)
    (of gf : List ℚ) (hm : 1 ≤ m)
    (h : forecast_well opt g w m = some (of, gf)) :
    ∃ last oil_params gas_params,
      (timeOffsets w).getLast? = some last ∧
      of = (List.range m).map (fun i : ℕ => g oil_params (last + 30 + 30 * (i : ℤ))) ∧
      gf = (List.range m).map (fun i : ℕ => g gas_params (last + 30 + 30 * (i : ℤ))) ∧
      of.length = m ∧ gf.length = m := by
  obtain ⟨last, op, gp, _, _, hlast, hof, hgf⟩ := forecast_well_some opt g w m of gf h
  refine ⟨last, op, gp, hlast, hof, hgf, ?_, ?_⟩
  · rw [hof]; simp
  · rw [hgf]; simp

set_option maxRecDepth 8000 in
/-- Witness for C1 on the concrete window `wGood` with horizon 12. -/
theorem forecast_grid_witness :
    forecast_well optGuess gQi wGood 12 =
        some (List.replicate 12 5, List.replicate 12 4) ∧
      (List.replicate 12 (5:ℚ)).length = 12 ∧
      (List.replicate 12 (4:ℚ)).length = 12 := by
  have h : forecast_well optGuess gQi wGood 12 =
      some (List.replicate 12 5, List.replicate 12 4) := by decide
  obtain ⟨last, op, gp, hlast, hof, hgf, hlo, hlg⟩ :=
    forecast_grid optGuess gQi wGood 12 (List.replicate 12 5)
      (List.replicate 12 4) (by norm_num) h
  exact ⟨h, hlo, hlg⟩

/-! ## C8: determinism -/

/-- C8: two calls of `forecast_well` with identical inputs yield
identical outputs — the embedded forecast path is a pure function of
its arguments (the source reads no ambient state and draws no
randomness inside the forecast path). -/
theorem forecast_deterministic (opt : Opt) (g : DeclineEval)
    (w1 w2 : List Row) (m1 m2 : ℕ) (hw : w1 = w2) (hm : m1 = m2) :
    forecast_well opt g w1 m1 = forecast_well opt g w2 m2 := by
  rw [hw, hm]

/-- Witness for C8 on the concrete window `wGood`. -/
theorem forecast_deterministic_witness :
    forecast_well optGuess gQi wGood 12 = forecast_well optGuess gQi wGood 12 :=
  forecast_deterministic optGuess gQi wGood wGood 12 12 rfl rfl

/-! ## C9: the caller's series is never mutated -/

/-- The caller-owned data visible to the core: the production series a
call receives, plus the derived time/production vectors handed to the
fitter.  Every operation the source performs on them (`-` on a column,
`.min()`, `.values`, boolean-mask filtering, `iloc` slicing, `.max()`,
element-wise arithmetic) allocates fresh pandas/numpy objects; no
statement assigns into the input frame (no in-place call, no column
assignment), so the state-passing translation of each core function
returns the store unchanged next to its value. -/
structure CoreState where
  series : List Row
  time : List ℤ
  production : List ℚ

/-- State-passing translation of `forecast_well`. -/
def forecast_well_st (opt : Opt) (g : DeclineEval) (s : CoreState) (m : ℕ) :
    Option (List ℚ × List ℚ) × CoreState :=
  (forecast_well opt g s.series m, s)

/-- State-passing translation of `fit_arps_decline`. -/
def fit_arps_decline_st (opt : Opt) (s : CoreState) :
    Option ArpsParams × CoreState :=
  (fit_arps_decline opt s.time s.production, s)

/-- State-passing translation of `evaluate_forecast`. -/
def evaluate_forecast_st (opt : Opt) (g : DeclineEval) (s : CoreState) :
    List EvalRecord × CoreState :=
  (evaluate_forecast opt g s.series, s)

/-- C9: `forecast_well`, `fit_arps_decline` and `evaluate_forecast`
leave the caller's series (and the derived vectors) unchanged: the
input sequence of (date, oil, gas) tuples is never mutated. -/
theorem core_preserves_series (opt : Opt) (g : DeclineEval) (s : CoreState)
    (m : ℕ) :
    (forecast_well_st opt g s m).2 = s ∧ (fit_arps_decline_st opt s).2 = s ∧
      (evaluate_forecast_st opt g s).2 = s :=
  ⟨rfl, rfl, rfl⟩

/-! ## C2: no distinct-date validation -/

lemma foldl_min_const (t : List ℤ) (a : ℤ) (h : ∀ x ∈ t, x = a) :
    t.foldl min a = a := by
  induction t with
  | nil => rfl
  | cons b t ih =>
    have hb : b = a := h b (List.mem_cons.mpr (Or.inl rfl))
    rw [List.foldl_cons, hb, min_self]
    exact ih (fun x hx => h x (List.mem_cons.mpr (Or.inr hx)))

lemma minDate_const (ds : List ℤ) (d : ℤ) (hne : ds ≠ [])
    (h : ∀ x ∈ ds, x = d) : minDate ds = d := by
  rcases ds with _ | ⟨d0, rest⟩
  · exact absurd rfl hne
  · have hd0 : d0 = d := h d0 (List.mem_cons.mpr (Or.inl rfl))
    have hrest : rest.foldl min d0 = d := by
      rw [hd0]
      exact foldl_min_const rest d (fun x hx => h x (List.mem_cons.mpr (Or.inr hx)))
    exact hrest

lemma timeOffsets_const (w : List Row) (d : ℤ) (hne : w ≠ [])
    (hd : ∀ r ∈ w, r.prod_date = d) :
    timeOffsets w = List.replicate w.length 0 := by
  have hdates : ∀ x ∈ w.map (fun r => r.prod_date), x = d := by
    intro x hx
    obtain ⟨r, hr, rfl⟩ := List.mem_map.mp hx
    exact hd r hr
  have hmapne : w.map (fun r => r.prod_date) ≠ [] := by
    simpa [List.map_eq_nil_iff] using hne
  have hmin : minDate (w.map (fun x => x.prod_date)) = d :=
    minDate_const _ d hmapne hdates
  rw [timeOffsets, hmin]
  have hlen : (w.map (fun r => r.prod_date - d)).length = w.length := by simp
  rw [← hlen]
  refine List.eq_replicate_length.mpr ?_
  intro b hb
  obtain ⟨r, hr, rfl⟩ := List.mem_map.mp hb
  rw [hd r hr, sub_self]

/-- C2 is false of the code: the window `wDeg` has a single distinct
production date, yet `forecast_well` raises no `InsufficientDataError`
and performs no fail-fast check — with a convergent optimizer it
proceeds to the fit and returns a forecast. -/
theorem forecast_no_distinct_date_check :
    ((wDeg.map (fun r => r.prod_date)).dedup.length = 1) ∧
      forecast_well optGuess gQi wDeg 12 ≠ none := by decide

/-- C2 (amended): `forecast_well` performs no distinct-date validation:
on a nonempty window whose dates are all equal it computes all-zero time
offsets and still attempts the fit, and it fails only when the optimizer
itself fails (never with a typed `InsufficientDataError`, which does not
exist in the code). -/
theorem forecast_degenerate_attempts_fit (opt : Opt) (g : DeclineEval)
    (w : List Row) (m : ℕ) (d : ℤ) (hne : w ≠ [])
    (hd : ∀ r ∈ w, r.prod_date = d)
    (hopt : ∀ t p p0, opt t p p0 arpsLower arpsUpper ≠ none) :
    timeOffsets w = List.replicate w.length 0 ∧
      forecast_well opt g w m ≠ none := by
  have htoff := timeOffsets_const w d hne hd
  refine ⟨htoff, ?_⟩
  obtain ⟨r0, w', rfl⟩ := List.exists_cons_of_ne_nil hne
  have hfo : fit_arps_decline opt (timeOffsets (r0 :: w'))
      ((r0 :: w').map (fun r => r.oil)) ≠ none := by
    rw [List.map_cons]
    exact hopt _ _ _
  have hfg : fit_arps_decline opt (timeOffsets (r0 :: w'))
      ((r0 :: w').map (fun r => r.gas)) ≠ none := by
    rw [List.map_cons]
    exact hopt _ _ _
  obtain ⟨op, hop⟩ := Option.ne_none_iff_exists'.mp hfo
  obtain ⟨gp, hgp⟩ := Option.ne_none_iff_exists'.mp hfg
  have hne2 : timeOffsets (r0 :: w') ≠ [] := by
    rw [htoff]
    simp
  rcases hl : (timeOffsets (r0 :: w')).getLast? with _ | last
  · exact absurd (List.getLast?_eq_none_iff.mp hl) hne2
  rw [forecast_well_def, hop]
  simp only [Option.some_bind]
  rw [hgp]
  simp only [Option.some_bind]
  rw [hl]
  simp

/-- Witness for the amended C2 on the concrete degenerate window
`wDeg`. -/
theorem forecast_degenerate_attempts_fit_witness :
    timeOffsets wDeg = List.replicate wDeg.length 0 ∧
      forecast_well optGuess gQi wDeg 12 ≠ none := by
  have h := forecast_degenerate_attempts_fit optGuess gQi wDeg 12 100
    (by decide) (by decide) (fun t p p0 => by simp [optGuess])
  exact h

/-! ## C7: initial guess and box constraints -/

/-- C7: `fit_arps_decline` hands the optimizer exactly the initial
guess `qi0 = max(production)`, `di0 = 0.1`, `b0 = 0.5`, together with
the hard box `qi ∈ [0, ∞), di ∈ [0, 1], b ∈ [0, 2]`; provided the
optimizer honours the box it is given — scipy's bounded least squares
documents this contract — every triple a successful fit returns lies
within those bounds. -/
theorem fit_guess_and_bounds (opt : Opt) (time : List ℤ)
    (production : List ℚ)
    (hbox : ∀ t p p0 r, opt t p p0 arpsLower arpsUpper = some r →
      inBox arpsLower arpsUpper r = true) :
    (∀ q qs, production = q :: qs →
      ∃ p0 : ArpsParams, p0.qi ∈ production ∧ (∀ y ∈ production, y ≤ p0.qi) ∧
        p0.di = 1/10 ∧ p0.b = 1/2 ∧
        fit_arps_decline opt time production =
          opt time production p0 arpsLower arpsUpper) ∧
    (∀ r, fit_arps_decline opt time production = some r →
      0 ≤ r.qi ∧ 0 ≤ r.di ∧ r.di ≤ 1 ∧ 0 ≤ r.b ∧ r.b ≤ 2) := by
  constructor
  · rintro q qs rfl
    refine ⟨⟨maxQ q qs, 1/10, 1/2⟩, ?_, ?_, rfl, rfl, rfl⟩
    · exact foldl_max_mem qs q
    · intro y hy
      exact foldl_max_ge qs q y hy
  · intro r hr
    rcases production with _ | ⟨q, qs⟩
    · exact absurd hr (by simp [fit_arps_decline])
    · have hb := hbox time (q :: qs) ⟨maxQ q qs, 1/10, 1/2⟩ r hr
      simp only [inBox, leUpper, arpsLower, arpsUpper, Bool.and_eq_true,
        decide_eq_true_eq] at hb
      refine ⟨?_, ?_, ?_, ?_, ?_⟩ <;> tauto

/-- Witness for C7: a box-respecting optimizer on a concrete series. -/
theorem fit_guess_and_bounds_witness :
    fit_arps_decline optBoxed [0, 30] [5, 3] =
        some ⟨5, 1/10, 1/2⟩ ∧
      (0 ≤ (5:ℚ) ∧ 0 ≤ (1/10:ℚ) ∧ (1/10:ℚ) ≤ 1 ∧ 0 ≤ (1/2:ℚ) ∧ (1/2:ℚ) ≤ 2) := by
  have hbox : ∀ t p p0 r, optBoxed t p p0 arpsLower arpsUpper = some r →
      inBox arpsLower arpsUpper r = true := by
    intro t p p0 r h
    simp only [optBoxed] at h
    split_ifs at h with hb
    exact (Option.some.inj h) ▸ hb
  have h5 : fit_arps_decline optBoxed [0, 30] [5, 3] = some ⟨5, 1/10, 1/2⟩ := by
    norm_num [fit_arps_decline, optBoxed, maxQ, inBox, leUpper, arpsLower, arpsUpper]
  have hc := (fit_guess_and_bounds optBoxed [0, 30] [5, 3] hbox).2 ⟨5, 1/10, 1/2⟩ h5
  exact ⟨h5, hc⟩

/-! ## C3: failure isolation in the evaluator -/

/-- C3: `evaluate_forecast` never propagates a single well's error: a
well whose processing fails contributes no record and is excluded from
the result collection, while every well that processes cleanly keeps
its record in the results — the batch continues past failures. -/
theorem evaluate_isolates_failures (opt : Opt) (g : DeclineEval)
    (df : List Row) (well : ℕ) (hmem : well ∈ uniqueWells df) :
    (processWell opt g df well = none →
      ∀ r ∈ evaluate_forecast opt g df, r.well_api ≠ well) ∧
    (∀ r, processWell opt g df well = some r →
      r ∈ evaluate_forecast opt g df) := by
  constructor
  · intro hnone r hr hcontra
    obtain ⟨w', hw', hsome⟩ := (mem_evaluate_iff opt g df r).mp hr
    have hapi : r.well_api = w' := processWell_api opt g df w' r hsome
    rw [hcontra] at hapi
    rw [← hapi] at hsome
    exact absurd (hsome.symm.trans hnone) (by simp)
  · intro r hsome
    exact (mem_evaluate_iff opt g df r).mpr ⟨well, hmem, hsome⟩

/-- Witness for C3 on `dfTwo`: well 2 fails and is excluded; well 1's
record is returned; the batch result is exactly well 1's record. -/
theorem evaluate_isolates_failures_witness :
    processWell optGuess gQi dfTwo 2 = none ∧
      recGood ∈ evaluate_forecast optGuess gQi dfTwo ∧
      evaluate_forecast optGuess gQi dfTwo = [recGood] := by
  have h1 : processWell optGuess gQi dfTwo 1 = some recGood := by
    norm_num [processWell, forecast_well, fit_arps_decline, optGuess, gQi,
      calculate_mpe, timeOffsets, minDate, npArange, maxQ, dfTwo, wGood, mkRow,
      recGood, List.filter_cons, List.range_succ, meanF, sumF, pointErr,
      FVal.add, FVal.divNat, FVal.mul100]
    simp [List.range_succ, gQi, pointErr, FVal.add, FVal.divNat, FVal.mul100]
  have h2 : processWell optGuess gQi dfTwo 2 = none := by
    norm_num [processWell, forecast_well, fit_arps_decline, optGuess, gQi,
      calculate_mpe, timeOffsets, minDate, npArange, maxQ, dfTwo, wGood, mkRow,
      List.filter_cons, List.range_succ, meanF, sumF, pointErr,
      FVal.add, FVal.divNat, FVal.mul100]
  have hu : uniqueWells dfTwo = [1, 2] := by decide
  have hmem : recGood ∈ evaluate_forecast optGuess gQi dfTwo :=
    (evaluate_isolates_failures optGuess gQi dfTwo 1 (by decide)).2 recGood h1
  refine ⟨h2, hmem, ?_⟩
  rw [evaluate_forecast, hu]
  simp [List.filterMap_cons, h1, h2]

/-! ## C4: train/test split and the MPE formula -/

/-- C4: every well `evaluate_forecast` scores is split into train = all
but the last 12 records and test = the last 12 records, the forecaster
runs on the training part, and each commodity's reported accuracy is
exactly `MPE = mean((forecast_i − actual_i) / actual_i) × 100` over the
12 test points. -/
theorem evaluate_split_and_mpe (opt : Opt) (g : DeclineEval) (df : List Row)
    (well : ℕ) (r : EvalRecord) (h : processWell opt g df well = some r) :
    ∃ wd train test of gf,
      wd = df.filter (fun x => x.well_api == well) ∧
      train = wd.take (wd.length - 12) ∧
      test = wd.drop (wd.length - 12) ∧
      train ++ test = wd ∧
      test.length = 12 ∧
      forecast_well opt g train 12 = some (of, gf) ∧
      r.well_api = well ∧
      r.oil_mpe = MPE_spec (test.map (fun x => x.oil)) of ∧
      r.gas_mpe = MPE_spec (test.map (fun x => x.gas)) gf := by
  rw [processWell_def] at h
  rcases hf : forecast_well opt g
      ((df.filter (fun x => x.well_api == well)).take
        ((df.filter (fun x => x.well_api == well)).length - 12)) 12 with _ | fc <;>
    rw [hf] at h
  · simp at h
  simp only [Option.some_bind] at h
  rcases hmo : calculate_mpe
      (((df.filter (fun x => x.well_api == well)).drop
          ((df.filter (fun x => x.well_api == well)).length - 12)).map
        (fun x => x.oil)) fc.1 with _ | om <;> rw [hmo] at h
  · simp at h
  simp only [Option.some_bind] at h
  rcases hmg : calculate_mpe
      (((df.filter (fun x => x.well_api == well)).drop
          ((df.filter (fun x => x.well_api == well)).length - 12)).map
        (fun x => x.gas)) fc.2 with _ | gm <;> rw [hmg] at h
  · simp at h
  simp only [Option.some_bind, Option.some.injEq] at h
  subst h
  have htr : (df.filter (fun x => x.well_api == well)).take
      ((df.filter (fun x => x.well_api == well)).length - 12) ≠ [] :=
    forecast_well_ne_nil opt g _ 12 fc.1 fc.2 (by rw [hf])
  have hk : (df.filter (fun x => x.well_api == well)).length - 12 ≠ 0 :=
    fun h0 => htr (List.take_eq_nil_iff.mpr (Or.inl h0))
  have htest : ((df.filter (fun x => x.well_api == well)).drop
      ((df.filter (fun x => x.well_api == well)).length - 12)).length = 12 := by
    rw [List.length_drop]
    omega
  obtain ⟨hlo, hlg⟩ := forecast_well_lengths opt g _ 12 fc.1 fc.2 (by rw [hf])
  have hmo' := calculate_mpe_eq
    (((df.filter (fun x => x.well_api == well)).drop
        ((df.filter (fun x => x.well_api == well)).length - 12)).map
      (fun x => x.oil)) fc.1 (by rw [hlo, List.length_map, htest])
  have hmg' := calculate_mpe_eq
    (((df.filter (fun x => x.well_api == well)).drop
        ((df.filter (fun x => x.well_api == well)).length - 12)).map
      (fun x => x.gas)) fc.2 (by rw [hlg, List.length_map, htest])
  have heo : om = MPE_spec
      (((df.filter (fun x => x.well_api == well)).drop
          ((df.filter (fun x => x.well_api == well)).length - 12)).map
        (fun x => x.oil)) fc.1 := Option.some.inj (hmo.symm.trans hmo')
  have heg : gm = MPE_spec
      (((df.filter (fun x => x.well_api == well)).drop
          ((df.filter (fun x => x.well_api == well)).length - 12)).map
        (fun x => x.gas)) fc.2 := Option.some.inj (hmg.symm.trans hmg')
  exact ⟨_, _, _, fc.1, fc.2, rfl, rfl, rfl, List.take_append_drop _ _, htest,
    (by rw [hf]), rfl, heo, heg⟩

/-- Witness for C4 on `dfTwo`, well 1. -/
theorem evaluate_split_and_mpe_witness :
    processWell optGuess gQi dfTwo 1 = some recGood ∧ recGood.well_api = 1 := by
  have h1 : processWell optGuess gQi dfTwo 1 = some recGood := by
    norm_num [processWell, forecast_well, fit_arps_decline, optGuess, gQi,
      calculate_mpe, timeOffsets, minDate, npArange, maxQ, dfTwo, wGood, mkRow,
      recGood, List.filter_cons, List.range_succ, meanF, sumF, pointErr,
      FVal.add, FVal.divNat, FVal.mul100]
    simp [List.range_succ, gQi, pointErr, FVal.add, FVal.divNat, FVal.mul100]
  obtain ⟨wd, train, test, of, gf, _, _, _, _, _, _, hapi, _, _⟩ :=
    evaluate_split_and_mpe optGuess gQi dfTwo 1 recGood h1
  exact ⟨h1, hapi⟩

/-! ## C10: zero actuals give a non-finite MPE but the record is kept -/

/-- C10: when a scored well's test window contains a zero actual value
(in the oil column or in the gas column), `calculate_mpe` divides
without raising and that commodity's MPE comes out non-finite (`inf`,
`-inf` or `nan`), and `evaluate_forecast` still appends that well's
record — with the non-finite MPE — to the result collection instead of
skipping the well. -/
theorem zero_actual_mpe_recorded (opt : Opt) (g : DeclineEval) (df : List Row)
    (well : ℕ) (of gf : List ℚ)
    (hf : forecast_well opt g
        ((df.filter (fun x => x.well_api == well)).take
          ((df.filter (fun x => x.well_api == well)).length - 12)) 12 =
      some (of, gf))
    (hz : (0:ℚ) ∈ ((df.filter (fun x => x.well_api == well)).drop
          ((df.filter (fun x => x.well_api == well)).length - 12)).map
        (fun x => x.oil) ∨
      (0:ℚ) ∈ ((df.filter (fun x => x.well_api == well)).drop
          ((df.filter (fun x => x.well_api == well)).length - 12)).map
        (fun x => x.gas)) :
    ∃ r, processWell opt g df well = some r ∧
      ((0:ℚ) ∈ ((df.filter (fun x => x.well_api == well)).drop
          ((df.filter (fun x => x.well_api == well)).length - 12)).map
        (fun x => x.oil) → r.oil_mpe.isFinite = false) ∧
      ((0:ℚ) ∈ ((df.filter (fun x => x.well_api == well)).drop
          ((df.filter (fun x => x.well_api == well)).length - 12)).map
        (fun x => x.gas) → r.gas_mpe.isFinite = false) ∧
      (r.oil_mpe.isFinite = false ∨ r.gas_mpe.isFinite = false) ∧
      (well ∈ uniqueWells df → r ∈ evaluate_forecast opt g df) := by
  have htr := forecast_well_ne_nil opt g _ 12 of gf hf
  have hk : (df.filter (fun x => x.well_api == well)).length - 12 ≠ 0 :=
    fun h0 => htr (List.take_eq_nil_iff.mpr (Or.inl h0))
  have htest : ((df.filter (fun x => x.well_api == well)).drop
      ((df.filter (fun x => x.well_api == well)).length - 12)).length = 12 := by
    rw [List.length_drop]
    omega
  obtain ⟨hlo, hlg⟩ := forecast_well_lengths opt g _ 12 of gf hf
  have hleno : of.length = (((df.filter (fun x => x.well_api == well)).drop
      ((df.filter (fun x => x.well_api == well)).length - 12)).map
    (fun x => x.oil)).length := by
    rw [hlo, List.length_map, htest]
  have hleng : gf.length = (((df.filter (fun x => x.well_api == well)).drop
      ((df.filter (fun x => x.well_api == well)).length - 12)).map
    (fun x => x.gas)).length := by
    rw [hlg, List.length_map, htest]
  have hmo := calculate_mpe_eq
    (((df.filter (fun x => x.well_api == well)).drop
        ((df.filter (fun x => x.well_api == well)).length - 12)).map
      (fun x => x.oil)) of hleno
  have hmg := calculate_mpe_eq
    (((df.filter (fun x => x.well_api == well)).drop
        ((df.filter (fun x => x.well_api == well)).length - 12)).map
      (fun x => x.gas)) gf hleng
  have hp : processWell opt g df well = some
      ⟨well,
        MPE_spec (((df.filter (fun x => x.well_api == well)).drop
            ((df.filter (fun x => x.well_api == well)).length - 12)).map
          (fun x => x.oil)) of,
        MPE_spec (((df.filter (fun x => x.well_api == well)).drop
            ((df.filter (fun x => x.well_api == well)).length - 12)).map
          (fun x => x.gas)) gf⟩ := by
    rw [processWell_def, hf]
    simp only [Option.some_bind]
    rw [hmo]
    simp only [Option.some_bind]
    rw [hmg]
    simp only [Option.some_bind]
  have hnfo : (0:ℚ) ∈ (((df.filter (fun x => x.well_api == well)).drop
        ((df.filter (fun x => x.well_api == well)).length - 12)).map
      (fun x => x.oil)) →
      (MPE_spec (((df.filter (fun x => x.well_api == well)).drop
          ((df.filter (fun x => x.well_api == well)).length - 12)).map
        (fun x => x.oil)) of).isFinite = false :=
    fun hz0 => MPE_spec_nonfin _ of hleno hz0
  have hnfg : (0:ℚ) ∈ (((df.filter (fun x => x.well_api == well)).drop
        ((df.filter (fun x => x.well_api == well)).length - 12)).map
      (fun x => x.gas)) →
      (MPE_spec (((df.filter (fun x => x.well_api == well)).drop
          ((df.filter (fun x => x.well_api == well)).length - 12)).map
        (fun x => x.gas)) gf).isFinite = false :=
    fun hz0 => MPE_spec_nonfin _ gf hleng hz0
  refine ⟨_, hp, hnfo, hnfg, ?_,
    fun hm => (mem_evaluate_iff opt g df _).mpr ⟨well, hm, hp⟩⟩
  rcases hz with hz0 | hz0
  · exact Or.inl (hnfo hz0)
  · exact Or.inr (hnfg hz0)

/-- Witness for C10 on `wZero`: well 7's test window holds a zero oil
actual and a zero gas actual; its record is still produced and
appended, with an infinite MPE for each commodity. -/
theorem zero_actual_mpe_recorded_witness :
    processWell optGuess gQi wZero 7 = some recZero ∧
      recZero.oil_mpe.isFinite = false ∧
      recZero.gas_mpe.isFinite = false ∧
      recZero ∈ evaluate_forecast optGuess gQi wZero := by
  have h0 : processWell optGuess gQi wZero 7 = some recZero := by
    norm_num [processWell, forecast_well, fit_arps_decline, optGuess, gQi,
      calculate_mpe, timeOffsets, minDate, npArange, maxQ, wZero, mkRow,
      recZero, List.filter_cons, List.range_succ, meanF, sumF, pointErr,
      FVal.add, FVal.divNat, FVal.mul100]
    simp [List.range_succ, gQi, pointErr, FVal.add, FVal.divNat, FVal.mul100]
  have hfc : forecast_well optGuess gQi
      ((wZero.filter (fun x => x.well_api == 7)).take
        ((wZero.filter (fun x => x.well_api == 7)).length - 12)) 12 =
      some (List.replicate 12 5, List.replicate 12 4) := by
    norm_num [forecast_well, fit_arps_decline, optGuess, gQi,
      timeOffsets, minDate, npArange, maxQ, wZero, mkRow,
      List.filter_cons, List.range_succ, Int.toNat_ofNat]
    simp [List.range_succ, gQi, List.eq_replicate_length]
  have hzo : (0:ℚ) ∈ ((wZero.filter (fun x => x.well_api == 7)).drop
      ((wZero.filter (fun x => x.well_api == 7)).length - 12)).map
      (fun x => x.oil) := by
    norm_num [wZero, mkRow, List.filter_cons]
  have hzg : (0:ℚ) ∈ ((wZero.filter (fun x => x.well_api == 7)).drop
      ((wZero.filter (fun x => x.well_api == 7)).length - 12)).map
      (fun x => x.gas) := by
    norm_num [wZero, mkRow, List.filter_cons]
  obtain ⟨r, hp, hio, hig, hdisj, hmem⟩ :=
    zero_actual_mpe_recorded optGuess gQi wZero 7
      (List.replicate 12 5) (List.replicate 12 4) hfc (Or.inl hzo)
  have hr : r = recZero := Option.some.inj (hp.symm.trans h0)
  subst hr
  exact ⟨hp, hio hzo, hig hzg, hmem (by decide)⟩
